import Mathlib

/-!
Verification of the nested-object cleaner (src/nested_object_cleaner.py).

The development shallowly embeds the program: JSON-like trees become the
mutual inductive types Node / Entries / Elems, Python strings become lists
of characters, and each Python function of the source becomes an executable
Lean definition with the same name (get_values_for_keys becomes
getValuesForKeys, get_substr_frequency becomes getSubstrFrequency,
_prune_dict becomes pruneDict, _prune_list becomes pruneList, prune_obj
becomes pruneObj, clean_obj becomes cleanObj, json.dumps becomes dumpsTop).
Fallible Python code (TypeError on unhashable set members and on
str.count applied to a non-string) is modelled with Except.  Python None,
which prune_obj returns to signal a discarded object and which can also be
the working value of the fixpoint loop, is modelled as Option.none.
-/

/-- Character-list strings model Python str values. -/
abbrev Str := List Char

/-- JSON scalars: strings, integers, booleans and null. -/
inductive Scalar where
  | str (s : Str)
  | int (n : Int)
  | bool (b : Bool)
  | null
deriving DecidableEq

mutual
/-- JSON trees: objects (ordered key-value entries), arrays and scalars. -/
inductive Node where
  | obj (es : Entries)
  | arr (xs : Elems)
  | scal (s : Scalar)
deriving DecidableEq
/-- Ordered entry list of an object node. -/
inductive Entries where
  | nil
  | cons (k : Str) (v : Node) (rest : Entries)
deriving DecidableEq
/-- Ordered element list of an array node. -/
inductive Elems where
  | nil
  | cons (v : Node) (rest : Elems)
deriving DecidableEq
end

/-- Python exceptions raised by the source: TypeError (unhashable set
member in get_values_for_keys, non-str argument of str.count). -/
inductive PyErr where
  | typeError
deriving DecidableEq

/-- Coerce a Lean string literal to the character-list representation. -/
def strL (s : String) : Str := s.data

/-- Membership of a Python string in a list of strings. -/
def memStr (s : Str) (l : List Str) : Bool := l.any (fun x => x == s)

/-- Python truthiness of a tree value: non-empty containers and non-empty,
non-zero, non-false, non-null scalars are truthy. -/
def truthy : Node → Bool
  | .obj .nil => false
  | .obj (.cons _ _ _) => true
  | .arr .nil => false
  | .arr (.cons _ _) => true
  | .scal (.str s) => !s.isEmpty
  | .scal (.int n) => n != 0
  | .scal (.bool b) => b
  | .scal .null => false

/-- Python equality on scalars, including the numeric equality of booleans
and integers (True equals 1 and False equals 0 in Python). -/
def pyEq : Scalar → Scalar → Bool
  | .str a, .str b => a == b
  | .int a, .int b => a == b
  | .bool a, .bool b => a == b
  | .int a, .bool b => a == (if b then (1 : Int) else 0)
  | .bool a, .int b => (if a then (1 : Int) else 0) == b
  | .null, .null => true
  | _, _ => false

/-- Membership of a scalar in a list of scalars under Python equality. -/
def memScal (s : Scalar) (l : List Scalar) : Bool := l.any (fun x => pyEq s x)

/-- Adding a scalar to the accumulated set of values: Python set.add keeps
the set free of duplicates under Python equality. -/
def setAdd (values : List Scalar) (s : Scalar) : List Scalar :=
  if memScal s values then values else values ++ [s]

mutual
/-- Recursive worker of get_values_for_keys on a node: dict entries whose
key is in the key set contribute their value to the accumulated set (a
container value is unhashable and raises TypeError); other entries and all
array elements are recursed into; scalars contribute nothing. -/
def gvkN : Node → List Str → List Scalar → Except PyErr (List Scalar)
  | .obj es, keys, values => gvkE es keys values
  | .arr xs, keys, values => gvkX xs keys values
  | .scal _, _, values => .ok values
/-- Worker of get_values_for_keys on object entries. -/
def gvkE : Entries → List Str → List Scalar → Except PyErr (List Scalar)
  | .nil, _, values => .ok values
  | .cons k v rest, keys, values =>
    if memStr k keys then
      match v with
      | .scal s => gvkE rest keys (setAdd values s)
      | _ => .error .typeError
    else
      match gvkN v keys values with
      | .ok values1 => gvkE rest keys values1
      | .error e => .error e
/-- Worker of get_values_for_keys on array elements. -/
def gvkX : Elems → List Str → List Scalar → Except PyErr (List Scalar)
  | .nil, _, values => .ok values
  | .cons v rest, keys, values =>
    match gvkN v keys values with
    | .ok values1 => gvkX rest keys values1
    | .error e => .error e
end

/-- Embeds get_values_for_keys: collect all values found under the given
keys anywhere in the nested object.  A Python None argument (not a dict
and not a list) yields the empty set. -/
def getValuesForKeys (obj : Option Node) (keys : List Str) : Except PyErr (List Scalar) :=
  match obj with
  | none => .ok []
  | some t => gvkN t keys []

/-- Lower-case hexadecimal digit for values below 16 (also used for the
decimal digits of integer serialization). -/
def hexDigit (n : Nat) : Char :=
  if n < 10 then Char.ofNat (48 + n) else Char.ofNat (87 + n)

/-- Four-digit lower-case hexadecimal rendering, as in json.dumps escapes. -/
def hex4 (n : Nat) : Str :=
  [hexDigit (n / 4096 % 16), hexDigit (n / 256 % 16), hexDigit (n / 16 % 16), hexDigit (n % 16)]

/-- Escape of one character inside a JSON string literal, following
json.dumps with its default ensure_ascii=True. -/
def escChar (c : Char) : Str :=
  if c = '"' then ['\\', '"']
  else if c = '\\' then ['\\', '\\']
  else if c = '\n' then ['\\', 'n']
  else if c = '\t' then ['\\', 't']
  else if c = '\r' then ['\\', 'r']
  else if c = '\x08' then ['\\', 'b']
  else if c = '\x0c' then ['\\', 'f']
  else if c.toNat < 32 then '\\' :: 'u' :: hex4 c.toNat
  else if c.toNat < 127 then [c]
  else if c.toNat < 65536 then '\\' :: 'u' :: hex4 c.toNat
  else
    ('\\' :: 'u' :: hex4 (55296 + (c.toNat - 65536) / 1024)) ++
      ('\\' :: 'u' :: hex4 (56320 + (c.toNat - 65536) % 1024))

/-- Escape every character of a string body. -/
def escSeq : Str → Str
  | [] => []
  | c :: cs => escChar c ++ escSeq cs

/-- Serialization of a string value: quoted and escaped. -/
def dumpStr (s : Str) : Str := '"' :: escSeq s ++ ['"']

/-- Decimal digits of a natural number (fuelled helper). -/
def natDecAux : Nat → Nat → Str
  | 0, _ => []
  | fuel + 1, n => if n < 10 then [hexDigit n] else natDecAux fuel (n / 10) ++ [hexDigit (n % 10)]

/-- Decimal rendering of a natural number. -/
def natDec (n : Nat) : Str := natDecAux (n + 1) n

/-- Decimal rendering of an integer, as Python repr of an int. -/
def intRepr (n : Int) : Str :=
  if n < 0 then '-' :: natDec (-n).toNat else natDec n.toNat

/-- Serialization of a scalar: quoted strings, decimal integers, the
keywords true, false and null. -/
def dumpScalar : Scalar → Str
  | .str s => dumpStr s
  | .int n => intRepr n
  | .bool true => strL ("true")
  | .bool false => strL ("false")
  | .null => strL ("null")

mutual
/-- Embeds json.dumps on a node with the default separators: object
entries are rendered pairwise with a colon-space and joined with
comma-space inside braces, arrays likewise inside brackets. -/
def dumpsN : Node → Str
  | .obj .nil => ['{', '}']
  | .obj (.cons k v rest) => '{' :: (dumpsE (.cons k v rest) ++ ['}'])
  | .arr .nil => ['[', ']']
  | .arr (.cons v rest) => '[' :: (dumpsX (.cons v rest) ++ [']'])
  | .scal s => dumpScalar s
/-- Serialization of the entry list of a non-empty object. -/
def dumpsE : Entries → Str
  | .nil => []
  | .cons k v .nil => dumpStr k ++ ':' :: ' ' :: dumpsN v
  | .cons k v (.cons k1 v1 rest) =>
    dumpStr k ++ (':' :: ' ' :: dumpsN v) ++ ',' :: ' ' :: dumpsE (.cons k1 v1 rest)
/-- Serialization of the element list of a non-empty array. -/
def dumpsX : Elems → Str
  | .nil => []
  | .cons v .nil => dumpsN v
  | .cons v (.cons v1 rest) => dumpsN v ++ ',' :: ' ' :: dumpsX (.cons v1 rest)
end

/-- Serialization of the working value of the fixpoint loop: json.dumps
renders Python None as null. -/
def dumpsTop : Option Node → Str
  | none => strL ("null")
  | some t => dumpsN t

/-- Whether the first list is an initial segment of the second. -/
def leadsWith : Str → Str → Bool
  | [], _ => true
  | _ :: _, [] => false
  | p :: ps, c :: cs => p == c && leadsWith ps cs

/-- Scanner for Python str.count with a non-empty needle: a positive skip
counter jumps over the remainder of a counted match, realizing the
non-overlapping left-to-right semantics. -/
def countSkip (sub : Str) : Str → Nat → Nat
  | [], _ => 0
  | _ :: cs, skip + 1 => countSkip sub cs skip
  | c :: cs, 0 =>
    if leadsWith sub (c :: cs) then 1 + countSkip sub cs (sub.length - 1)
    else countSkip sub cs 0

/-- Embeds Python str.count: the number of non-overlapping left-to-right
occurrences of sub in s; for the empty needle Python returns the length
of the string plus one. -/
def pyCount (s sub : Str) : Nat :=
  if sub.isEmpty then s.length + 1 else countSkip sub s 0

/-- Embeds get_substr_frequency: one count per candidate.  Python
str.count demands a str argument, so an integer, boolean or null
candidate raises TypeError. -/
def getSubstrFrequency : Str → List Scalar → Except PyErr (List (Scalar × Nat))
  | _, [] => .ok []
  | s, c :: rest =>
    match c with
    | .str sub =>
      match getSubstrFrequency s rest with
      | .ok freqs => .ok ((Scalar.str sub, pyCount s sub) :: freqs)
      | .error e => .error e
    | _ => .error .typeError

/-- Embeds summed_frequencies: total of all counts of a frequency table. -/
def summedFrequencies (freq : List (Scalar × Nat)) : Nat :=
  (freq.map (fun p => p.2)).foldr (fun a b => a + b) 0

/-- The orphaned subset of a frequency table: candidates whose count is
exactly one, as selected inside clean_obj. -/
def orphanedValues (freq : List (Scalar × Nat)) : List Scalar :=
  (freq.filter (fun p => p.2 == 1)).map (fun p => p.1)

/-- Dot-joined rendering of a key path, as Python str.join. -/
def joinDot : List Str → Str
  | [] => []
  | [s] => s
  | s :: s1 :: rest => s ++ '.' :: joinDot (s1 :: rest)

/-- The pruning criterion of one dict entry: its key is one of the clean
keys and its value equals (in the Python sense) one of the orphaned
values; a container value never equals a scalar. -/
def scalMatch (v : Node) (forValues : List Scalar) : Bool :=
  match v with
  | .scal s => memScal s forValues
  | _ => false

mutual
/-- Embeds prune_obj: a blacklisted (dot-joined, non-empty) path is
returned unchanged without recursing; dicts may be discarded wholesale
(None, modelled as Option.none); lists and other values are returned. -/
def pruneObj (t : Node) (onKeys : List Str) (forValues : List Scalar)
    (ignorePaths : List Str) (path : List Str) : Option Node :=
  if !ignorePaths.isEmpty && !path.isEmpty && memStr (joinDot path) ignorePaths then
    some t
  else
    match t with
    | .obj es => (pruneDict es onKeys forValues ignorePaths path).map Node.obj
    | .arr xs => some (.arr (pruneList xs onKeys forValues ignorePaths path))
    | .scal _ => some t
/-- Embeds _prune_dict: a matching entry discards the whole object; a
truthy value is recursed into with the key pushed onto the path, and the
entry is kept only when the recursive result is truthy; a falsy value is
kept unchanged as possibly meaningful. -/
def pruneDict (es : Entries) (onKeys : List Str) (forValues : List Scalar)
    (ignorePaths : List Str) (path : List Str) : Option Entries :=
  match es with
  | .nil => some .nil
  | .cons k v rest =>
    if memStr k onKeys && scalMatch v forValues then none
    else if truthy v then
      match pruneObj v onKeys forValues ignorePaths (path ++ [k]) with
      | some w =>
        if truthy w then (pruneDict rest onKeys forValues ignorePaths path).map (.cons k w)
        else pruneDict rest onKeys forValues ignorePaths path
      | none => pruneDict rest onKeys forValues ignorePaths path
    else (pruneDict rest onKeys forValues ignorePaths path).map (.cons k v)
/-- Embeds _prune_list: a truthy element is recursed into (the path is not
extended) and kept only when the result is truthy; a falsy element is kept
unchanged. -/
def pruneList (xs : Elems) (onKeys : List Str) (forValues : List Scalar)
    (ignorePaths : List Str) (path : List Str) : Elems :=
  match xs with
  | .nil => .nil
  | .cons v rest =>
    if truthy v then
      match pruneObj v onKeys forValues ignorePaths path with
      | some w =>
        if truthy w then .cons w (pruneList rest onKeys forValues ignorePaths path)
        else pruneList rest onKeys forValues ignorePaths path
      | none => pruneList rest onKeys forValues ignorePaths path
    else .cons v (pruneList rest onKeys forValues ignorePaths path)
end

/-- Pruning of the working value of the loop: prune_obj returns a Python
None argument unchanged (it is neither a dict nor a list). -/
def pruneTop (w : Option Node) (onKeys : List Str) (forValues : List Scalar)
    (ignorePaths : List Str) : Option Node :=
  match w with
  | none => none
  | some t => pruneObj t onKeys forValues ignorePaths []

mutual
/-- Node count of a tree, the termination measure of the fixpoint loop. -/
def sizeN : Node → Nat
  | .obj es => 1 + sizeE es
  | .arr xs => 1 + sizeX xs
  | .scal _ => 1
/-- Node count of an entry list, counting one per entry. -/
def sizeE : Entries → Nat
  | .nil => 0
  | .cons _ v rest => 1 + sizeN v + sizeE rest
/-- Node count of an element list, counting one per element. -/
def sizeX : Elems → Nat
  | .nil => 0
  | .cons v rest => 1 + sizeN v + sizeX rest
end

/-- Node count of the working value; Python None counts zero. -/
def sizeO : Option Node → Nat
  | none => 0
  | some t => sizeN t

/-- Embeds the while-True loop of clean_obj, with explicit fuel: count the
candidate set against the working value, prune with the orphaned subset
when it is non-empty, recount, and stop when the summed count did not
change.  Exhausted fuel yields Option.none; the theorem on cleanLoop
below shows fuel exceeding the node count never exhausts. -/
def cleanLoop : Nat → List Scalar → Option Node → List Str → List Str →
    Option (Except PyErr (Option Node))
  | 0, _, _, _, _ => none
  | fuel + 1, matchVals, w, cleanKeys, ignorePaths =>
    match getSubstrFrequency (dumpsTop w) matchVals with
    | .error e => some (.error e)
    | .ok freqBefore =>
      let orphaned := orphanedValues freqBefore
      let w1 := if orphaned.isEmpty then w else pruneTop w cleanKeys orphaned ignorePaths
      match getSubstrFrequency (dumpsTop w1) matchVals with
      | .error e => some (.error e)
      | .ok freqAfter =>
        if summedFrequencies freqAfter == summedFrequencies freqBefore then some (.ok w1)
        else cleanLoop fuel matchVals w1 cleanKeys ignorePaths

/-- Embeds clean_obj: collect the candidate values from the original
object, then run the fixpoint loop on a (value-semantics) copy.  The
source loops unboundedly; the fuel sizeO obj + 1 provably suffices, so
the Option.getD default branch is unreachable. -/
def cleanObj (obj : Option Node) (searchKeys cleanKeys ignorePaths : List Str) :
    Except PyErr (Option Node) :=
  match getValuesForKeys obj searchKeys with
  | .error e => .error e
  | .ok matchVals =>
    (cleanLoop (sizeO obj + 1) matchVals obj cleanKeys ignorePaths).getD (.ok obj)


/-- Builds an entry list from a Lean list of key-value pairs. -/
def eOf : List (Str × Node) → Entries
  | [] => .nil
  | (k, v) :: r => .cons k v (eOf r)

/-- Builds an element list from a Lean list of nodes. -/
def xOf : List Node → Elems
  | [] => .nil
  | v :: r => .cons v (xOf r)

/-- Convenient object constructor. -/
def objL (l : List (Str × Node)) : Node := .obj (eOf l)

/-- Convenient array constructor. -/
def arrL (l : List Node) : Node := .arr (xOf l)

/-- Convenient string-scalar constructor. -/
def strN (s : String) : Node := .scal (.str s.data)

/-- Lookup of a key in an entry list (first occurrence). -/
def lookupE : Entries → Str → Option Node
  | .nil, _ => none
  | .cons k v rest, key => if k == key then some v else lookupE rest key

/-- The subtree of a tree at a path of object keys, when it exists.  This
is the notion of a subtree rooted at a dot-joined path used by the
specification of ignore paths. -/
def getPath : Node → List Str → Option Node
  | t, [] => some t
  | .obj es, k :: rest =>
    match lookupE es k with
    | some v => getPath v rest
    | none => none
  | .arr _, _ :: _ => none
  | .scal _, _ :: _ => none

mutual
/-- Relates an input tree to a pruning result: every entry of an output
object is an entry of the input object, in order, whose value either was
falsy (an empty container or empty, zero, false or null scalar) and is
preserved verbatim, or was truthy, is still truthy, and is related
recursively; likewise for array elements.  In particular every object
strictly below the output root is either non-empty or an empty object
preserved verbatim from the input. -/
def shapeN : Node → Node → Bool
  | .obj es, .obj es' => shapeE es es'
  | .arr xs, .arr xs' => shapeX xs xs'
  | .scal s, .scal s' => s == s'
  | _, _ => false
/-- Entry-list part of the pruning-shape relation: the output entries form
a subsequence of the input entries, each kept entry satisfying the
falsy-verbatim or truthy-recursive condition. -/
def shapeE : Entries → Entries → Bool
  | .nil, .nil => true
  | .nil, .cons _ _ _ => false
  | .cons k v r, es' =>
    shapeE r es' ||
      match es' with
      | .cons k' v' r' =>
        k == k' && ((!truthy v && v == v') || (truthy v && truthy v' && shapeN v v')) &&
          shapeE r r'
      | .nil => false
/-- Element-list part of the pruning-shape relation. -/
def shapeX : Elems → Elems → Bool
  | .nil, .nil => true
  | .nil, .cons _ _ => false
  | .cons v r, xs' =>
    shapeX r xs' ||
      match xs' with
      | .cons v' r' =>
        ((!truthy v && v == v') || (truthy v && truthy v' && shapeN v v')) && shapeX r r'
      | .nil => false
end

/-- Pruning-shape relation on the working value of the loop: a discarded
result is related to anything, a present result to a present input. -/
def shapeO : Option Node → Option Node → Bool
  | _, none => true
  | some t, some t' => shapeN t t'
  | none, some _ => false

/-- Example tree of the specification scenario: items named a and b, the
first also holding a ref to a, plus a refs list holding b. -/
def exScenario : Node := objL [
  (strL ("items"), arrL [
    objL [(strL ("name"), strN ("a")), (strL ("ref"), strN ("a"))],
    objL [(strL ("name"), strN ("b"))]]),
  (strL ("refs"), arrL [strN ("b")])]

/-- Output the specification predicts for the scenario: the first item
pruned, everything else retained. -/
def exScenarioClaimed : Node := objL [
  (strL ("items"), arrL [objL [(strL ("name"), strN ("b"))]]),
  (strL ("refs"), arrL [strN ("b")])]

/-- A string value whose raw text (z, a double quote, a comma, a space,
a double quote, q) can occur in a serialization only through the textual
adjacency of a string ending in z and a following key or string starting
with q, never at its own (escaped) definition site. -/
def uVal : Str := ['z', '"', ',', ' ', '"', 'q']

/-- Input tree on which clean is not idempotent: pruning the list entry
between the strings az and qx creates a fresh textual occurrence of uVal
exactly when the loop stops, so only a second clean call removes the
objects naming and referencing uVal. -/
def t0c3 : Node := objL [
  (strL ("L"), arrL [strN ("az"), objL [(strL ("name"), strN ("vv"))], strN ("qx")]),
  (strL ("R"), objL [(strL ("name"), strN ("bb")), (strL ("ref"), strN ("vv"))]),
  (strL ("U"), objL [(strL ("name"), .scal (.str uVal))]),
  (strL ("Q"), objL [(strL ("ref"), .scal (.str uVal))])]

/-- Search keys of the idempotence counterexample. -/
def skc3 : List Str := [strL ("name")]

/-- Clean keys of the idempotence counterexample. -/
def ckc3 : List Str := [strL ("name"), strL ("ref")]

/-- First clean result of the idempotence counterexample. -/
def t2c3 : Node := objL [
  (strL ("L"), arrL [strN ("az"), strN ("qx")]),
  (strL ("U"), objL [(strL ("name"), .scal (.str uVal))]),
  (strL ("Q"), objL [(strL ("ref"), .scal (.str uVal))])]

/-- Second clean result of the idempotence counterexample. -/
def t3c3 : Node := objL [(strL ("L"), arrL [strN ("az"), strN ("qx")])]

/-- A doubly nested tree whose innermost object is discarded by a match,
leaving the intermediate object empty, hence falsy, hence dropped by its
parent as well, and finally an emptied root object. -/
def tDeep : Node := objL [
  (strL ("a"), objL [(strL ("b"), objL [(strL ("name"), strN ("w"))])])]

/-- The intermediate value of tDeep under its key a. -/
def tDeepInner : Node := objL [(strL ("b"), objL [(strL ("name"), strN ("w"))])]

/-- Tree with a protected subtree at path x.cfg whose enclosing object is
discarded wholesale by a match on its sibling entry. -/
def tIgn : Node := objL [
  (strL ("x"), objL [
    (strL ("name"), strN ("s")),
    (strL ("cfg"), objL [(strL ("z"), .scal (.int 1))])])]

/-- The protected subtree of tIgn at path x.cfg. -/
def tIgnCfg : Node := objL [(strL ("z"), .scal (.int 1))]

/-- A string value like uVal for the same adjacency including the full
neighbour strings az and qx. -/
def u2Val : Str := ['a', 'z', '"', ',', ' ', '"', 'q', 'x']

/-- Input tree on which the first loop iteration increases the summed
occurrence count from one to two: removing the object named bb creates
fresh textual occurrences of both uVal and u2Val. -/
def t0c8 : Node := objL [
  (strL ("L"), arrL [strN ("az"), objL [(strL ("name"), strN ("bb"))], strN ("qx")]),
  (strL ("U1"), objL [(strL ("name"), .scal (.str uVal))]),
  (strL ("U2"), objL [(strL ("name"), .scal (.str u2Val))])]

/-- The candidate set collected from t0c8 under the search key name. -/
def mvC8 : List Scalar := [.str (strL ("bb")), .str uVal, .str u2Val]


/-- Unfolding of pruneObj on an object node. -/
theorem pruneObj_obj (es : Entries) (ks : List Str) (fv : List Scalar) (ig ph : List Str) :
    pruneObj (.obj es) ks fv ig ph =
      (if !ig.isEmpty && !ph.isEmpty && memStr (joinDot ph) ig then some (.obj es)
       else (pruneDict es ks fv ig ph).map Node.obj) := by
  rw [pruneObj.eq_def]

/-- Unfolding of pruneObj on an array node. -/
theorem pruneObj_arr (xs : Elems) (ks : List Str) (fv : List Scalar) (ig ph : List Str) :
    pruneObj (.arr xs) ks fv ig ph =
      (if !ig.isEmpty && !ph.isEmpty && memStr (joinDot ph) ig then some (.arr xs)
       else some (.arr (pruneList xs ks fv ig ph))) := by
  rw [pruneObj.eq_def]

/-- Unfolding of pruneObj on a scalar node. -/
theorem pruneObj_scal (s : Scalar) (ks : List Str) (fv : List Scalar) (ig ph : List Str) :
    pruneObj (.scal s) ks fv ig ph = some (.scal s) := by
  rw [pruneObj.eq_def]
  split <;> rfl

/-- Unfolding of pruneDict on the empty entry list. -/
theorem pruneDict_nil (ks : List Str) (fv : List Scalar) (ig ph : List Str) :
    pruneDict .nil ks fv ig ph = some .nil := by
  rw [pruneDict.eq_def]

/-- Unfolding of pruneDict on a non-empty entry list. -/
theorem pruneDict_cons (k : Str) (v : Node) (rest : Entries) (ks : List Str)
    (fv : List Scalar) (ig ph : List Str) :
    pruneDict (.cons k v rest) ks fv ig ph =
      (if memStr k ks && scalMatch v fv then none
       else if truthy v then
         match pruneObj v ks fv ig (ph ++ [k]) with
         | some w =>
           if truthy w then (pruneDict rest ks fv ig ph).map (.cons k w)
           else pruneDict rest ks fv ig ph
         | none => pruneDict rest ks fv ig ph
       else (pruneDict rest ks fv ig ph).map (.cons k v)) := by
  rw [pruneDict.eq_def]

/-- Unfolding of pruneList on the empty element list. -/
theorem pruneList_nil (ks : List Str) (fv : List Scalar) (ig ph : List Str) :
    pruneList .nil ks fv ig ph = .nil := by
  rw [pruneList.eq_def]

/-- Unfolding of pruneList on a non-empty element list. -/
theorem pruneList_cons (v : Node) (rest : Elems) (ks : List Str)
    (fv : List Scalar) (ig ph : List Str) :
    pruneList (.cons v rest) ks fv ig ph =
      (if truthy v then
         match pruneObj v ks fv ig ph with
         | some w =>
           if truthy w then .cons w (pruneList rest ks fv ig ph)
           else pruneList rest ks fv ig ph
         | none => pruneList rest ks fv ig ph
       else .cons v (pruneList rest ks fv ig ph)) := by
  rw [pruneList.eq_def]

/-- Every node counts at least one. -/
theorem sizeN_pos (t : Node) : 1 ≤ sizeN t := by
  cases t <;> simp [sizeN]

mutual
/-- Pruning a node never increases its node count. -/
theorem pruneN_size_le (t : Node) (ks : List Str) (fv : List Scalar) (ig ph : List Str)
    (t' : Node) (h : pruneObj t ks fv ig ph = some t') : sizeN t' ≤ sizeN t := by
  cases t with
  | obj es =>
    rw [pruneObj_obj] at h
    by_cases hig : (!ig.isEmpty && !ph.isEmpty && memStr (joinDot ph) ig) = true
    · rw [if_pos hig] at h
      cases h
      exact le_refl _
    · rw [if_neg hig] at h
      cases he : pruneDict es ks fv ig ph with
      | none => rw [he] at h; simp at h
      | some es' =>
        rw [he] at h
        simp only [Option.map_some', Option.some.injEq] at h
        cases h
        have := pruneE_size_le es ks fv ig ph es' he
        simp only [sizeN]
        omega
  | arr xs =>
    rw [pruneObj_arr] at h
    by_cases hig : (!ig.isEmpty && !ph.isEmpty && memStr (joinDot ph) ig) = true
    · rw [if_pos hig] at h
      cases h
      exact le_refl _
    · rw [if_neg hig] at h
      simp only [Option.some.injEq] at h
      cases h
      have := pruneX_size_le xs ks fv ig ph
      simp only [sizeN]
      omega
  | scal s =>
    rw [pruneObj_scal] at h
    cases h
    exact le_refl _
/-- Pruning an entry list never increases its node count. -/
theorem pruneE_size_le (es : Entries) (ks : List Str) (fv : List Scalar) (ig ph : List Str)
    (es' : Entries) (h : pruneDict es ks fv ig ph = some es') : sizeE es' ≤ sizeE es := by
  cases es with
  | nil =>
    rw [pruneDict_nil] at h
    cases h
    exact le_refl _
  | cons k v rest =>
    rw [pruneDict_cons] at h
    by_cases hm : (memStr k ks && scalMatch v fv) = true
    · rw [if_pos hm] at h; simp at h
    · rw [if_neg hm] at h
      by_cases ht : truthy v = true
      · rw [if_pos ht] at h
        cases hp : pruneObj v ks fv ig (ph ++ [k]) with
        | some w =>
          simp only [hp] at h
          by_cases htw : truthy w = true
          · rw [if_pos htw] at h
            cases hr : pruneDict rest ks fv ig ph with
            | none => rw [hr] at h; simp at h
            | some rest' =>
              rw [hr] at h
              simp only [Option.map_some', Option.some.injEq] at h
              cases h
              have h1 := pruneN_size_le v ks fv ig (ph ++ [k]) w hp
              have h2 := pruneE_size_le rest ks fv ig ph rest' hr
              simp only [sizeE]
              omega
          · rw [if_neg htw] at h
            have h2 := pruneE_size_le rest ks fv ig ph es' h
            have h3 := sizeN_pos v
            simp only [sizeE]
            omega
        | none =>
          simp only [hp] at h
          have h2 := pruneE_size_le rest ks fv ig ph es' h
          have h3 := sizeN_pos v
          simp only [sizeE]
          omega
      · rw [if_neg ht] at h
        cases hr : pruneDict rest ks fv ig ph with
        | none => rw [hr] at h; simp at h
        | some rest' =>
          rw [hr] at h
          simp only [Option.map_some', Option.some.injEq] at h
          cases h
          have h2 := pruneE_size_le rest ks fv ig ph rest' hr
          simp only [sizeE]
          omega
/-- Pruning an element list never increases its node count. -/
theorem pruneX_size_le (xs : Elems) (ks : List Str) (fv : List Scalar) (ig ph : List Str) :
    sizeX (pruneList xs ks fv ig ph) ≤ sizeX xs := by
  cases xs with
  | nil => rw [pruneList_nil]
  | cons v rest =>
    rw [pruneList_cons]
    by_cases ht : truthy v = true
    · rw [if_pos ht]
      cases hp : pruneObj v ks fv ig ph with
      | some w =>
        simp only [hp]
        by_cases htw : truthy w = true
        · rw [if_pos htw]
          have h1 := pruneN_size_le v ks fv ig ph w hp
          have h2 := pruneX_size_le rest ks fv ig ph
          simp only [sizeX]
          omega
        · rw [if_neg htw]
          have h2 := pruneX_size_le rest ks fv ig ph
          have h3 := sizeN_pos v
          simp only [sizeX]
          omega
      | none =>
        simp only [hp]
        have h2 := pruneX_size_le rest ks fv ig ph
        have h3 := sizeN_pos v
        simp only [sizeX]
        omega
    · rw [if_neg ht]
      have h2 := pruneX_size_le rest ks fv ig ph
      simp only [sizeX]
      omega
end

mutual
/-- A pruned node is either unchanged or strictly smaller. -/
theorem pruneN_eq_or_lt (t : Node) (ks : List Str) (fv : List Scalar) (ig ph : List Str)
    (t' : Node) (h : pruneObj t ks fv ig ph = some t') :
    t' = t ∨ sizeN t' < sizeN t := by
  cases t with
  | obj es =>
    rw [pruneObj_obj] at h
    by_cases hig : (!ig.isEmpty && !ph.isEmpty && memStr (joinDot ph) ig) = true
    · rw [if_pos hig] at h
      cases h
      exact Or.inl rfl
    · rw [if_neg hig] at h
      cases he : pruneDict es ks fv ig ph with
      | none => rw [he] at h; simp at h
      | some es' =>
        rw [he] at h
        simp only [Option.map_some', Option.some.injEq] at h
        cases h
        rcases pruneE_eq_or_lt es ks fv ig ph es' he with he1 | he1
        · exact Or.inl (by rw [he1])
        · refine Or.inr ?_
          simp only [sizeN]
          omega
  | arr xs =>
    rw [pruneObj_arr] at h
    by_cases hig : (!ig.isEmpty && !ph.isEmpty && memStr (joinDot ph) ig) = true
    · rw [if_pos hig] at h
      cases h
      exact Or.inl rfl
    · rw [if_neg hig] at h
      simp only [Option.some.injEq] at h
      cases h
      rcases pruneX_eq_or_lt xs ks fv ig ph with he1 | he1
      · exact Or.inl (by rw [he1])
      · refine Or.inr ?_
        simp only [sizeN]
        omega
  | scal s =>
    rw [pruneObj_scal] at h
    cases h
    exact Or.inl rfl
/-- A pruned entry list is either unchanged or strictly smaller. -/
theorem pruneE_eq_or_lt (es : Entries) (ks : List Str) (fv : List Scalar) (ig ph : List Str)
    (es' : Entries) (h : pruneDict es ks fv ig ph = some es') :
    es' = es ∨ sizeE es' < sizeE es := by
  cases es with
  | nil =>
    rw [pruneDict_nil] at h
    cases h
    exact Or.inl rfl
  | cons k v rest =>
    rw [pruneDict_cons] at h
    by_cases hm : (memStr k ks && scalMatch v fv) = true
    · rw [if_pos hm] at h; simp at h
    · rw [if_neg hm] at h
      by_cases ht : truthy v = true
      · rw [if_pos ht] at h
        cases hp : pruneObj v ks fv ig (ph ++ [k]) with
        | some w =>
          simp only [hp] at h
          by_cases htw : truthy w = true
          · rw [if_pos htw] at h
            cases hr : pruneDict rest ks fv ig ph with
            | none => rw [hr] at h; simp at h
            | some rest' =>
              rw [hr] at h
              simp only [Option.map_some', Option.some.injEq] at h
              cases h
              rcases pruneN_eq_or_lt v ks fv ig (ph ++ [k]) w hp with hv | hv
              · rcases pruneE_eq_or_lt rest ks fv ig ph rest' hr with hr1 | hr1
                · exact Or.inl (by rw [hv, hr1])
                · refine Or.inr ?_
                  have := pruneN_size_le v ks fv ig (ph ++ [k]) w hp
                  simp only [sizeE]
                  omega
              · refine Or.inr ?_
                have := pruneE_size_le rest ks fv ig ph rest' hr
                simp only [sizeE]
                omega
          · rw [if_neg htw] at h
            refine Or.inr ?_
            have h2 := pruneE_size_le rest ks fv ig ph es' h
            have h3 := sizeN_pos v
            simp only [sizeE]
            omega
        | none =>
          simp only [hp] at h
          refine Or.inr ?_
          have h2 := pruneE_size_le rest ks fv ig ph es' h
          have h3 := sizeN_pos v
          simp only [sizeE]
          omega
      · rw [if_neg ht] at h
        cases hr : pruneDict rest ks fv ig ph with
        | none => rw [hr] at h; simp at h
        | some rest' =>
          rw [hr] at h
          simp only [Option.map_some', Option.some.injEq] at h
          cases h
          rcases pruneE_eq_or_lt rest ks fv ig ph rest' hr with hr1 | hr1
          · exact Or.inl (by rw [hr1])
          · refine Or.inr ?_
            simp only [sizeE]
            omega
/-- A pruned element list is either unchanged or strictly smaller. -/
theorem pruneX_eq_or_lt (xs : Elems) (ks : List Str) (fv : List Scalar) (ig ph : List Str) :
    pruneList xs ks fv ig ph = xs ∨ sizeX (pruneList xs ks fv ig ph) < sizeX xs := by
  cases xs with
  | nil => exact Or.inl (pruneList_nil ks fv ig ph)
  | cons v rest =>
    rw [pruneList_cons]
    by_cases ht : truthy v = true
    · rw [if_pos ht]
      cases hp : pruneObj v ks fv ig ph with
      | some w =>
        simp only [hp]
        by_cases htw : truthy w = true
        · rw [if_pos htw]
          rcases pruneN_eq_or_lt v ks fv ig ph w hp with hv | hv
          · rcases pruneX_eq_or_lt rest ks fv ig ph with hr1 | hr1
            · exact Or.inl (by rw [hv, hr1])
            · refine Or.inr ?_
              have := pruneN_size_le v ks fv ig ph w hp
              simp only [sizeX]
              omega
          · refine Or.inr ?_
            have := pruneX_size_le rest ks fv ig ph
            simp only [sizeX]
            omega
        · rw [if_neg htw]
          refine Or.inr ?_
          have h2 := pruneX_size_le rest ks fv ig ph
          have h3 := sizeN_pos v
          simp only [sizeX]
          omega
      | none =>
        simp only [hp]
        refine Or.inr ?_
        have h2 := pruneX_size_le rest ks fv ig ph
        have h3 := sizeN_pos v
        simp only [sizeX]
        omega
    · rw [if_neg ht]
      rcases pruneX_eq_or_lt rest ks fv ig ph with hr1 | hr1
      · exact Or.inl (by rw [hr1])
      · refine Or.inr ?_
        simp only [sizeX]
        omega
end

/-- A changed pruning result of the working value is strictly smaller. -/
theorem pruneTop_size_lt (w : Option Node) (ks : List Str) (fv : List Scalar)
    (ig : List Str) (h : pruneTop w ks fv ig ≠ w) :
    sizeO (pruneTop w ks fv ig) < sizeO w := by
  cases w with
  | none => simp [pruneTop] at h
  | some t =>
    simp only [pruneTop] at h ⊢
    cases hp : pruneObj t ks fv ig [] with
    | none =>
      have := sizeN_pos t
      simp only [sizeO]
      omega
    | some t' =>
      rw [hp] at h
      have ht : t' ≠ t := by
        intro he
        exact h (by rw [he])
      rcases pruneN_eq_or_lt t ks fv ig [] t' hp with he | hl
      · exact absurd he ht
      · simpa [sizeO] using hl

/-- Fuel exceeding the node count of the working value never exhausts: the
loop of clean_obj reaches its stop condition within sizeO w + 1 rounds,
because a round that neither stops nor errors strictly shrinks the tree. -/
theorem cleanLoop_isSome (fuel : Nat) : ∀ (mv : List Scalar) (w : Option Node)
    (ck ig : List Str), sizeO w < fuel → (cleanLoop fuel mv w ck ig).isSome = true := by
  induction fuel with
  | zero => intro mv w ck ig h; omega
  | succ n ih =>
    intro mv w ck ig h
    rw [cleanLoop]
    cases hf : getSubstrFrequency (dumpsTop w) mv with
    | error e => simp
    | ok freqB =>
      by_cases ho : (orphanedValues freqB).isEmpty = true
      · simp [ho, hf]
      · simp only [Bool.not_eq_true] at ho
        by_cases hw : pruneTop w ck (orphanedValues freqB) ig = w
        · simp [ho, hw, hf]
        · cases hfa : getSubstrFrequency (dumpsTop (pruneTop w ck (orphanedValues freqB) ig)) mv with
          | error e => simp [ho, hfa]
          | ok freqA =>
            by_cases hs : (summedFrequencies freqA == summedFrequencies freqB) = true
            · simp [ho, hfa, hs]
            · simp only [Bool.not_eq_true] at hs
              simp only [ho, hfa, hs, Bool.false_eq_true, if_false]
              have hlt := pruneTop_size_lt w ck (orphanedValues freqB) ig hw
              exact ih mv _ ck ig (by omega)

mutual
/-- The pruning-shape relation is reflexive on nodes. -/
theorem shapeN_refl (t : Node) : shapeN t t = true := by
  cases t with
  | obj es => simp only [shapeN]; exact shapeE_refl es
  | arr xs => simp only [shapeN]; exact shapeX_refl xs
  | scal s => simp [shapeN]
/-- The pruning-shape relation is reflexive on entry lists. -/
theorem shapeE_refl (es : Entries) : shapeE es es = true := by
  cases es with
  | nil => simp [shapeE]
  | cons k v r =>
    have hr := shapeE_refl r
    have hv := shapeN_refl v
    cases ht : truthy v <;> simp [shapeE, hr, hv, ht]
/-- The pruning-shape relation is reflexive on element lists. -/
theorem shapeX_refl (xs : Elems) : shapeX xs xs = true := by
  cases xs with
  | nil => simp [shapeX]
  | cons v r =>
    have hr := shapeX_refl r
    have hv := shapeN_refl v
    cases ht : truthy v <;> simp [shapeX, hr, hv, ht]
end


/-- Unfolding of shapeE on a non-empty first entry list. -/
theorem shapeE_cons (k : Str) (v : Node) (r : Entries) (es' : Entries) :
    shapeE (.cons k v r) es' =
      (shapeE r es' ||
        match es' with
        | .cons k' v' r' =>
          k == k' && ((!truthy v && v == v') || (truthy v && truthy v' && shapeN v v')) &&
            shapeE r r'
        | .nil => false) := by
  rw [shapeE.eq_def]

/-- Unfolding of shapeX on a non-empty first element list. -/
theorem shapeX_cons (v : Node) (r : Elems) (xs' : Elems) :
    shapeX (.cons v r) xs' =
      (shapeX r xs' ||
        match xs' with
        | .cons v' r' =>
          ((!truthy v && v == v') || (truthy v && truthy v' && shapeN v v')) && shapeX r r'
        | .nil => false) := by
  rw [shapeX.eq_def]

mutual
/-- The pruning-shape relation is transitive on nodes. -/
theorem shapeN_trans (a b c : Node) (h1 : shapeN a b = true) (h2 : shapeN b c = true) :
    shapeN a c = true := by
  cases a with
  | obj es =>
    cases b with
    | obj es1 =>
      cases c with
      | obj es2 =>
        simp only [shapeN] at h1 h2 ⊢
        exact shapeE_trans es es1 es2 h1 h2
      | arr _ => simp [shapeN] at h2
      | scal _ => simp [shapeN] at h2
    | arr _ => simp [shapeN] at h1
    | scal _ => simp [shapeN] at h1
  | arr xs =>
    cases b with
    | arr xs1 =>
      cases c with
      | arr xs2 =>
        simp only [shapeN] at h1 h2 ⊢
        exact shapeX_trans xs xs1 xs2 h1 h2
      | obj _ => simp [shapeN] at h2
      | scal _ => simp [shapeN] at h2
    | obj _ => simp [shapeN] at h1
    | scal _ => simp [shapeN] at h1
  | scal s =>
    cases b with
    | scal s1 =>
      cases c with
      | scal s2 =>
        simp only [shapeN, beq_iff_eq] at h1 h2 ⊢
        rw [h1, h2]
      | obj _ => simp [shapeN] at h2
      | arr _ => simp [shapeN] at h2
    | obj _ => simp [shapeN] at h1
    | arr _ => simp [shapeN] at h1
/-- The pruning-shape relation is transitive on entry lists. -/
theorem shapeE_trans (a b c : Entries) (h1 : shapeE a b = true) (h2 : shapeE b c = true) :
    shapeE a c = true := by
  cases a with
  | nil =>
    cases b with
    | nil => exact h2
    | cons _ _ _ => simp [shapeE] at h1
  | cons k v r =>
    rw [shapeE_cons] at h1 ⊢
    simp only [Bool.or_eq_true] at h1
    rcases h1 with h1l | h1r
    · simp only [Bool.or_eq_true]
      exact Or.inl (shapeE_trans r b c h1l h2)
    · cases b with
      | nil => simp at h1r
      | cons k1 v1 r1 =>
        simp only [Bool.and_eq_true, Bool.or_eq_true, Bool.not_eq_true', beq_iff_eq] at h1r
        obtain ⟨⟨hk, hP⟩, hr⟩ := h1r
        rw [shapeE_cons] at h2
        simp only [Bool.or_eq_true] at h2
        rcases h2 with h2l | h2r
        · simp only [Bool.or_eq_true]
          exact Or.inl (shapeE_trans r r1 c hr h2l)
        · cases c with
          | nil => simp at h2r
          | cons k2 v2 r2 =>
            simp only [Bool.and_eq_true, Bool.or_eq_true, Bool.not_eq_true', beq_iff_eq] at h2r
            obtain ⟨⟨hk2, hP2⟩, hr2⟩ := h2r
            simp only [Bool.or_eq_true]
            refine Or.inr ?_
            simp only [Bool.and_eq_true, Bool.or_eq_true, Bool.not_eq_true', beq_iff_eq]
            refine ⟨⟨hk.trans hk2, ?_⟩, shapeE_trans r r1 r2 hr hr2⟩
            rcases hP with ⟨hnt, hveq⟩ | ⟨⟨htv, htv1⟩, hsh⟩
            · subst hveq
              exact hP2
            · rcases hP2 with ⟨hnt1, _⟩ | ⟨⟨_, htv2⟩, hsh2⟩
              · rw [htv1] at hnt1
                cases hnt1
              · exact Or.inr ⟨⟨htv, htv2⟩, shapeN_trans v v1 v2 hsh hsh2⟩
/-- The pruning-shape relation is transitive on element lists. -/
theorem shapeX_trans (a b c : Elems) (h1 : shapeX a b = true) (h2 : shapeX b c = true) :
    shapeX a c = true := by
  cases a with
  | nil =>
    cases b with
    | nil => exact h2
    | cons _ _ => simp [shapeX] at h1
  | cons v r =>
    rw [shapeX_cons] at h1 ⊢
    simp only [Bool.or_eq_true] at h1
    rcases h1 with h1l | h1r
    · simp only [Bool.or_eq_true]
      exact Or.inl (shapeX_trans r b c h1l h2)
    · cases b with
      | nil => simp at h1r
      | cons v1 r1 =>
        simp only [Bool.and_eq_true, Bool.or_eq_true, Bool.not_eq_true', beq_iff_eq] at h1r
        obtain ⟨hP, hr⟩ := h1r
        rw [shapeX_cons] at h2
        simp only [Bool.or_eq_true] at h2
        rcases h2 with h2l | h2r
        · simp only [Bool.or_eq_true]
          exact Or.inl (shapeX_trans r r1 c hr h2l)
        · cases c with
          | nil => simp at h2r
          | cons v2 r2 =>
            simp only [Bool.and_eq_true, Bool.or_eq_true, Bool.not_eq_true', beq_iff_eq] at h2r
            obtain ⟨hP2, hr2⟩ := h2r
            simp only [Bool.or_eq_true]
            refine Or.inr ?_
            simp only [Bool.and_eq_true, Bool.or_eq_true, Bool.not_eq_true', beq_iff_eq]
            refine ⟨?_, shapeX_trans r r1 r2 hr hr2⟩
            rcases hP with ⟨hnt, hveq⟩ | ⟨⟨htv, htv1⟩, hsh⟩
            · subst hveq
              exact hP2
            · rcases hP2 with ⟨hnt1, _⟩ | ⟨⟨_, htv2⟩, hsh2⟩
              · rw [htv1] at hnt1
                cases hnt1
              · exact Or.inr ⟨⟨htv, htv2⟩, shapeN_trans v v1 v2 hsh hsh2⟩
end

mutual
/-- Pruning a node yields a shape-related node. -/
theorem pruneN_shape (t : Node) (ks : List Str) (fv : List Scalar) (ig ph : List Str)
    (t' : Node) (h : pruneObj t ks fv ig ph = some t') : shapeN t t' = true := by
  cases t with
  | obj es =>
    rw [pruneObj_obj] at h
    by_cases hig : (!ig.isEmpty && !ph.isEmpty && memStr (joinDot ph) ig) = true
    · rw [if_pos hig] at h
      cases h
      exact shapeN_refl _
    · rw [if_neg hig] at h
      cases he : pruneDict es ks fv ig ph with
      | none => rw [he] at h; simp at h
      | some es' =>
        rw [he] at h
        simp only [Option.map_some', Option.some.injEq] at h
        cases h
        simp only [shapeN]
        exact pruneE_shape es ks fv ig ph es' he
  | arr xs =>
    rw [pruneObj_arr] at h
    by_cases hig : (!ig.isEmpty && !ph.isEmpty && memStr (joinDot ph) ig) = true
    · rw [if_pos hig] at h
      cases h
      exact shapeN_refl _
    · rw [if_neg hig] at h
      simp only [Option.some.injEq] at h
      cases h
      simp only [shapeN]
      exact pruneX_shape xs ks fv ig ph
  | scal s =>
    rw [pruneObj_scal] at h
    cases h
    exact shapeN_refl _
/-- Pruning an entry list yields a shape-related entry list. -/
theorem pruneE_shape (es : Entries) (ks : List Str) (fv : List Scalar) (ig ph : List Str)
    (es' : Entries) (h : pruneDict es ks fv ig ph = some es') : shapeE es es' = true := by
  cases es with
  | nil =>
    rw [pruneDict_nil] at h
    cases h
    simp [shapeE]
  | cons k v rest =>
    rw [pruneDict_cons] at h
    by_cases hm : (memStr k ks && scalMatch v fv) = true
    · rw [if_pos hm] at h; simp at h
    · rw [if_neg hm] at h
      by_cases ht : truthy v = true
      · rw [if_pos ht] at h
        cases hp : pruneObj v ks fv ig (ph ++ [k]) with
        | some w =>
          simp only [hp] at h
          by_cases htw : truthy w = true
          · rw [if_pos htw] at h
            cases hr : pruneDict rest ks fv ig ph with
            | none => rw [hr] at h; simp at h
            | some rest' =>
              rw [hr] at h
              simp only [Option.map_some', Option.some.injEq] at h
              cases h
              rw [shapeE_cons]
              simp only [Bool.or_eq_true, Bool.and_eq_true, Bool.not_eq_true', beq_iff_eq]
              exact Or.inr ⟨⟨trivial, Or.inr ⟨⟨ht, htw⟩,
                pruneN_shape v ks fv ig (ph ++ [k]) w hp⟩⟩,
                pruneE_shape rest ks fv ig ph rest' hr⟩
          · rw [if_neg htw] at h
            rw [shapeE_cons]
            simp only [Bool.or_eq_true]
            exact Or.inl (pruneE_shape rest ks fv ig ph es' h)
        | none =>
          simp only [hp] at h
          rw [shapeE_cons]
          simp only [Bool.or_eq_true]
          exact Or.inl (pruneE_shape rest ks fv ig ph es' h)
      · rw [if_neg ht] at h
        cases hr : pruneDict rest ks fv ig ph with
        | none => rw [hr] at h; simp at h
        | some rest' =>
          rw [hr] at h
          simp only [Option.map_some', Option.some.injEq] at h
          cases h
          rw [shapeE_cons]
          simp only [Bool.or_eq_true, Bool.and_eq_true, Bool.not_eq_true', beq_iff_eq]
          refine Or.inr ⟨⟨trivial, Or.inl ⟨?_, trivial⟩⟩,
            pruneE_shape rest ks fv ig ph rest' hr⟩
          simpa using ht
/-- Pruning an element list yields a shape-related element list. -/
theorem pruneX_shape (xs : Elems) (ks : List Str) (fv : List Scalar) (ig ph : List Str) :
    shapeX xs (pruneList xs ks fv ig ph) = true := by
  cases xs with
  | nil =>
    rw [pruneList_nil]
    simp [shapeX]
  | cons v rest =>
    rw [pruneList_cons]
    by_cases ht : truthy v = true
    · rw [if_pos ht]
      cases hp : pruneObj v ks fv ig ph with
      | some w =>
        simp only [hp]
        by_cases htw : truthy w = true
        · rw [if_pos htw]
          rw [shapeX_cons]
          simp only [Bool.or_eq_true, Bool.and_eq_true, Bool.not_eq_true', beq_iff_eq]
          exact Or.inr ⟨Or.inr ⟨⟨ht, htw⟩, pruneN_shape v ks fv ig ph w hp⟩,
            pruneX_shape rest ks fv ig ph⟩
        · rw [if_neg htw]
          rw [shapeX_cons]
          simp only [Bool.or_eq_true]
          exact Or.inl (pruneX_shape rest ks fv ig ph)
      | none =>
        simp only [hp]
        rw [shapeX_cons]
        simp only [Bool.or_eq_true]
        exact Or.inl (pruneX_shape rest ks fv ig ph)
    · rw [if_neg ht]
      rw [shapeX_cons]
      simp only [Bool.or_eq_true, Bool.and_eq_true, Bool.not_eq_true', beq_iff_eq]
      refine Or.inr ⟨Or.inl ⟨?_, trivial⟩, pruneX_shape rest ks fv ig ph⟩
      simpa using ht
end

/-- The working-value shape relation is reflexive. -/
theorem shapeO_refl (w : Option Node) : shapeO w w = true := by
  cases w with
  | none => rfl
  | some t => simp only [shapeO]; exact shapeN_refl t

/-- One pruning pass on the working value yields a shape-related value. -/
theorem pruneTop_shape (w : Option Node) (ks : List Str) (fv : List Scalar) (ig : List Str) :
    shapeO w (pruneTop w ks fv ig) = true := by
  cases w with
  | none => rfl
  | some t =>
    simp only [pruneTop]
    cases hp : pruneObj t ks fv ig [] with
    | none => rfl
    | some t' =>
      simp only [shapeO]
      exact pruneN_shape t ks fv ig [] t' hp

/-- The working-value shape relation is transitive. -/
theorem shapeO_trans (a b c : Option Node) (h1 : shapeO a b = true) (h2 : shapeO b c = true) :
    shapeO a c = true := by
  cases c with
  | none => cases a <;> rfl
  | some tc =>
    cases b with
    | none => simp [shapeO] at h2
    | some tb =>
      cases a with
      | none => simp [shapeO] at h1
      | some ta =>
        simp only [shapeO] at h1 h2 ⊢
        exact shapeN_trans ta tb tc h1 h2

/-- Whatever the loop of clean_obj returns is shape-related to the working
value it started from. -/
theorem cleanLoop_shape (fuel : Nat) : ∀ (mv : List Scalar) (w : Option Node)
    (ck ig : List Str) (w' : Option Node),
    cleanLoop fuel mv w ck ig = some (.ok w') → shapeO w w' = true := by
  induction fuel with
  | zero => intro mv w ck ig w' h; simp [cleanLoop] at h
  | succ n ih =>
    intro mv w ck ig w' h
    rw [cleanLoop] at h
    cases hf : getSubstrFrequency (dumpsTop w) mv with
    | error e => rw [hf] at h; simp at h
    | ok freqB =>
      simp only [hf] at h
      by_cases ho : (orphanedValues freqB).isEmpty = true
      · simp only [ho, if_true, hf] at h
        simp only [beq_self_eq_true, if_true, Option.some.injEq, Except.ok.injEq] at h
        cases h
        exact shapeO_refl w
      · simp only [Bool.not_eq_true] at ho
        simp only [ho, Bool.false_eq_true, if_false] at h
        cases hfa : getSubstrFrequency
            (dumpsTop (pruneTop w ck (orphanedValues freqB) ig)) mv with
        | error e => rw [hfa] at h; simp at h
        | ok freqA =>
          simp only [hfa] at h
          by_cases hs : (summedFrequencies freqA == summedFrequencies freqB) = true
          · simp only [hs, if_true, Option.some.injEq, Except.ok.injEq] at h
            cases h
            exact pruneTop_shape w ck (orphanedValues freqB) ig
          · simp only [Bool.not_eq_true] at hs
            simp only [hs, Bool.false_eq_true, if_false] at h
            exact shapeO_trans w (pruneTop w ck (orphanedValues freqB) ig) w'
              (pruneTop_shape w ck (orphanedValues freqB) ig)
              (ih mv (pruneTop w ck (orphanedValues freqB) ig) ck ig w' h)

/-- Decimal renderings are never empty. -/
theorem natDec_ne_nil (n : Nat) : natDec n ≠ [] := by
  rw [natDec, natDecAux]
  split <;> simp

/-- The serialization of any working value is a non-empty string. -/
theorem dumpsTop_ne_nil (w : Option Node) : dumpsTop w ≠ [] := by
  cases w with
  | none => decide
  | some t =>
    cases t with
    | obj es => cases es <;> simp [dumpsTop, dumpsN]
    | arr xs => cases xs <;> simp [dumpsTop, dumpsN]
    | scal s =>
      cases s with
      | str v => simp [dumpsTop, dumpsN, dumpScalar, dumpStr]
      | int n =>
        simp only [dumpsTop, dumpsN, dumpScalar, intRepr]
        split
        · simp
        · exact natDec_ne_nil _
      | bool b => cases b <;> decide
      | null => decide

/-- When the orphaned subset of the first count is empty the loop of
clean_obj stops in its first round and returns the working value. -/
theorem cleanLoop_stop (n : Nat) (mv : List Scalar) (w : Option Node) (ck ig : List Str)
    (freq : List (Scalar × Nat)) (hf : getSubstrFrequency (dumpsTop w) mv = .ok freq)
    (ho : orphanedValues freq = []) : cleanLoop (n + 1) mv w ck ig = some (.ok w) := by
  rw [cleanLoop]
  simp [hf, ho]

/-- When the candidate values collected for a working value produce an
empty orphaned subset, clean_obj returns the working value unchanged. -/
theorem cleanObj_stop (w : Option Node) (sk ck ig : List Str) (mv : List Scalar)
    (freq : List (Scalar × Nat)) (hm : getValuesForKeys w sk = .ok mv)
    (hf : getSubstrFrequency (dumpsTop w) mv = .ok freq)
    (ho : orphanedValues freq = []) : cleanObj w sk ck ig = .ok w := by
  rw [cleanObj, hm]
  simp only []
  rw [cleanLoop_stop (sizeO w) mv w ck ig freq hf ho]
  rfl

/-- Claim C1 is false on the code: for the tree with one entry name: a,
the counter reports candidate a twice (the raw letter a occurs in the key
name and in the value), while the serialized quoted form of the candidate
occurs exactly once; moreover an integer candidate makes the counter
raise TypeError instead of being counted via its textual form. -/
theorem c1_counterexample :
    getSubstrFrequency (dumpsN (objL [(strL ("name"), strN ("a"))]))
        [Scalar.str (strL ("a"))] =
      .ok [(Scalar.str (strL ("a")), 2)] ∧
    pyCount (dumpsN (objL [(strL ("name"), strN ("a"))]))
        (dumpScalar (Scalar.str (strL ("a")))) = 1 ∧
    (2 : Nat) ≠ 1 ∧
    getSubstrFrequency (dumpsN (objL [(strL ("name"), strN ("a"))])) [Scalar.int 42] =
      .error .typeError :=
  ⟨rfl, rfl, by decide, rfl⟩

/-- Claim C1, amended: the occurrence counter counts, for a string
candidate, the non-overlapping left-to-right occurrences of the
candidate's raw character sequence (not of its quoted serialized form) in
the serialization of the tree, and it does not count numeric, boolean or
null candidates at all: on those it raises TypeError. -/
theorem c1_theorem (w : Option Node) (c : Str) :
    getSubstrFrequency (dumpsTop w) [Scalar.str c] =
      .ok [(Scalar.str c, pyCount (dumpsTop w) c)] ∧
    (∀ n : Int, getSubstrFrequency (dumpsTop w) [Scalar.int n] = .error .typeError) ∧
    (∀ b : Bool, getSubstrFrequency (dumpsTop w) [Scalar.bool b] = .error .typeError) ∧
    getSubstrFrequency (dumpsTop w) [Scalar.null] = .error .typeError :=
  ⟨rfl, fun _ => rfl, fun _ => rfl, rfl⟩

/-- Claim C2 is false on the code: on the scenario input with search key
name and clean key ref, clean returns the input unchanged (the letter a
occurs four times in the serialization, twice inside the two name keys,
so no candidate is orphaned), not the predicted output with the first
item pruned. -/
theorem c2_counterexample :
    cleanObj (some exScenario) [strL ("name")] [strL ("ref")] [] = .ok (some exScenario) ∧
    exScenario ≠ exScenarioClaimed :=
  ⟨rfl, by decide⟩

/-- Claim C2, amended: on the scenario input with search key name and
clean key ref, clean is the identity: candidate a has raw occurrence
count four and candidate b count two, so nothing is orphaned and the loop
stops after its first round. -/
theorem c2_theorem :
    cleanObj (some exScenario) [strL ("name")] [strL ("ref")] [] = .ok (some exScenario) :=
  rfl

/-- Claim C3 is false on the code: cleaning t0c3 stops at t2c3 although
pruning has just created a fresh textual occurrence of the candidate
uVal, so cleaning t2c3 prunes further, to t3c3. -/
theorem c3_counterexample :
    cleanObj (some t0c3) skc3 ckc3 [] = .ok (some t2c3) ∧
    cleanObj (some t2c3) skc3 ckc3 [] = .ok (some t3c3) ∧
    t3c3 ≠ t2c3 :=
  ⟨rfl, rfl, by decide⟩

/-- Claim C3, amended: clean is not idempotent in general, because
pruning can create new textual adjacencies that orphan a candidate only
after the loop has stopped; what does hold is that clean returns its
input unchanged whenever the candidates collected from that input yield
an empty orphaned subset, in particular whenever a previous clean call
ended because its orphaned subset was empty. -/
theorem c3_theorem (w : Option Node) (sk ck ig : List Str) (mv : List Scalar)
    (freq : List (Scalar × Nat)) (hm : getValuesForKeys w sk = .ok mv)
    (hf : getSubstrFrequency (dumpsTop w) mv = .ok freq)
    (ho : orphanedValues freq = []) : cleanObj w sk ck ig = .ok w :=
  cleanObj_stop w sk ck ig mv freq hm hf ho

/-- Witness for the amended claim C3 at the tree t3c3, whose candidate
set is empty. -/
theorem c3_witness : cleanObj (some t3c3) skc3 ckc3 [] = .ok (some t3c3) :=
  c3_theorem (some t3c3) skc3 ckc3 [] [] [] rfl rfl rfl

/-- Claim C4 is false on the code: pruning the tree tDeep discards the
innermost object by a match, which empties the intermediate object; the
intermediate result is present (not absent) yet falsy, and the enclosing
entry a is dropped anyway, leaving an empty root instead of the object
with entry a kept. -/
theorem c4_counterexample :
    pruneObj tDeep [strL ("name")] [Scalar.str (strL ("w"))] [] [] = some (.obj .nil) ∧
    Node.obj .nil ≠ objL [(strL ("a"), .obj .nil)] :=
  ⟨rfl, by decide⟩

/-- Claim C4, amended: for a non-matching entry with truthy value whose
recursive prune returns a present result, the entry is kept only when
that result is itself truthy; a present but falsy result (such as an
emptied object or array) drops the entry exactly as an absent result
does. -/
theorem c4_theorem (k : Str) (v : Node) (rest : Entries) (ks : List Str)
    (fv : List Scalar) (ig ph : List Str) (w : Node)
    (hm : (memStr k ks && scalMatch v fv) = false) (ht : truthy v = true)
    (hp : pruneObj v ks fv ig (ph ++ [k]) = some w) :
    (truthy w = false →
      pruneDict (.cons k v rest) ks fv ig ph = pruneDict rest ks fv ig ph) ∧
    (truthy w = true →
      pruneDict (.cons k v rest) ks fv ig ph =
        (pruneDict rest ks fv ig ph).map (.cons k w)) := by
  constructor
  · intro htw
    rw [pruneDict_cons]
    simp [hm, ht, hp, htw]
  · intro htw
    rw [pruneDict_cons]
    simp [hm, ht, hp, htw]

/-- Witness for the amended claim C4: the entry a of tDeep holds a truthy
value whose prune is the present but falsy empty object, and the entry is
dropped. -/
theorem c4_witness :
    pruneDict (.cons (strL ("a")) tDeepInner .nil) [strL ("name")]
        [Scalar.str (strL ("w"))] [] [] =
      pruneDict .nil [strL ("name")] [Scalar.str (strL ("w"))] [] [] :=
  (c4_theorem (strL ("a")) tDeepInner .nil [strL ("name")] [Scalar.str (strL ("w"))]
    [] [] (.obj .nil) rfl rfl rfl).1 rfl

/-- Claim C5 is false on the code at the root: cleaning tDeep removes all
entries of the root object and returns the emptied root, an object with
no keys that was not empty at the corresponding place in the input. -/
theorem c5_counterexample :
    cleanObj (some tDeep) [strL ("name")] [strL ("name")] [] = .ok (some (.obj .nil)) ∧
    tDeep ≠ .obj .nil :=
  ⟨rfl, by decide⟩

/-- Claim C5, amended: the output of clean is shape-related to the input:
below the root, every entry or element kept in an output container either
had a falsy value (in particular an empty object) preserved verbatim from
the corresponding input position, or has a truthy (hence, for an object,
non-empty) value; only the root object itself can be left emptied by
pruning. -/
theorem c5_theorem (t : Node) (sk ck ig : List Str) (w' : Option Node)
    (h : cleanObj (some t) sk ck ig = .ok w') : shapeO (some t) w' = true := by
  rw [cleanObj] at h
  cases hg : getValuesForKeys (some t) sk with
  | error e => rw [hg] at h; simp at h
  | ok mv =>
    rw [hg] at h
    simp only [] at h
    cases hl : cleanLoop (sizeO (some t) + 1) mv (some t) ck ig with
    | some r =>
      rw [hl] at h
      simp only [Option.getD_some] at h
      subst h
      exact cleanLoop_shape (sizeO (some t) + 1) mv (some t) ck ig w' hl
    | none =>
      rw [hl] at h
      simp only [Option.getD_none, Except.ok.injEq] at h
      subst h
      exact shapeO_refl _

/-- Witness for the amended claim C5 at the tree tDeep. -/
theorem c5_witness : shapeO (some tDeep) (some (.obj .nil)) = true :=
  c5_theorem tDeep [strL ("name")] [strL ("name")] [] (some (.obj .nil)) rfl

/-- Claim C6 is false on the code: with path x.cfg ignored, cleaning tIgn
discards the whole object under x because of the match on its sibling
entry name, so the subtree that existed at x.cfg in the input does not
exist at x.cfg in the output at all. -/
theorem c6_counterexample :
    cleanObj (some tIgn) [strL ("name")] [strL ("name")] [strL ("x.cfg")] =
      .ok (some (.obj .nil)) ∧
    getPath tIgn [strL ("x"), strL ("cfg")] = some tIgnCfg ∧
    getPath (.obj .nil) [strL ("x"), strL ("cfg")] = none :=
  ⟨rfl, rfl, rfl⟩

/-- Claim C6, amended: a subtree whose non-empty dot-joined path is
listed in the ignore paths is returned unchanged by the pruner, which
does not recurse beneath it; this protects the subtree from modification
but not from disappearing when an enclosing object is discarded wholesale
by a clean-key match outside of it. -/
theorem c6_theorem (t : Node) (ks : List Str) (fv : List Scalar) (ig ph : List Str)
    (hph : ph ≠ []) (hmem : memStr (joinDot ph) ig = true) :
    pruneObj t ks fv ig ph = some t := by
  have hig : ig ≠ [] := by
    intro he
    subst he
    simp [memStr] at hmem
  have hcond : (!ig.isEmpty && !ph.isEmpty && memStr (joinDot ph) ig) = true := by
    simp [hmem, List.isEmpty_iff, hig, hph]
  rw [pruneObj.eq_def, if_pos hcond]

/-- Witness for the amended claim C6: the subtree of tIgn at the ignored
path x.cfg is returned unchanged by the pruner. -/
theorem c6_witness :
    pruneObj tIgnCfg [strL ("name")] [] [strL ("x.cfg")]
        [strL ("x"), strL ("cfg")] = some tIgnCfg :=
  c6_theorem tIgnCfg [strL ("name")] [] [strL ("x.cfg")]
    [strL ("x"), strL ("cfg")] (by decide) (by decide)

/-- Claim C7 is false on the code: a scalar root is not rejected; clean
returns it unchanged as a successful result. -/
theorem c7_counterexample :
    cleanObj (some (.scal (.int 5))) [strL ("name")] [strL ("name")] [] =
      .ok (some (.scal (.int 5))) :=
  rfl

/-- Claim C7, amended: on a scalar root clean raises nothing and returns
the root unchanged, for every configuration: the collector finds no
candidates, the first count is empty, and the loop stops at once. -/
theorem c7_theorem (s : Scalar) (sk ck ig : List Str) :
    cleanObj (some (.scal s)) sk ck ig = .ok (some (.scal s)) :=
  cleanObj_stop (some (.scal s)) sk ck ig [] [] rfl rfl rfl

/-- Claim C8 is false on the code as to the mechanism: on t0c8 the first
round of the loop prunes the object named bb (the only orphaned
candidate, total count one) and the recount yields total count two, so a
round can strictly increase the total occurrence count and still not be
the last round. -/
theorem c8_counterexample :
    getValuesForKeys (some t0c8) [strL ("name")] = .ok mvC8 ∧
    getSubstrFrequency (dumpsTop (some t0c8)) mvC8 =
      .ok [(Scalar.str (strL ("bb")), 1), (Scalar.str uVal, 0), (Scalar.str u2Val, 0)] ∧
    orphanedValues
        [(Scalar.str (strL ("bb")), 1), (Scalar.str uVal, 0), (Scalar.str u2Val, 0)] =
      [Scalar.str (strL ("bb"))] ∧
    getSubstrFrequency
        (dumpsTop (pruneTop (some t0c8) [strL ("name")] [Scalar.str (strL ("bb"))] []))
        mvC8 =
      .ok [(Scalar.str (strL ("bb")), 0), (Scalar.str uVal, 1), (Scalar.str u2Val, 1)] ∧
    summedFrequencies
        [(Scalar.str (strL ("bb")), 0), (Scalar.str uVal, 1), (Scalar.str u2Val, 1)] >
      summedFrequencies
        [(Scalar.str (strL ("bb")), 1), (Scalar.str uVal, 0), (Scalar.str u2Val, 0)] :=
  ⟨rfl, rfl, rfl, rfl, by decide⟩

/-- Claim C8, amended: the loop of clean_obj does terminate on every
working value, candidate set and configuration, but the bound is the node
count of the tree, not the candidate count: a round that neither stops
nor errors strictly shrinks the tree, while the total occurrence count
may stay equal or even grow. -/
theorem c8_theorem (mv : List Scalar) (w : Option Node) (ck ig : List Str) :
    (cleanLoop (sizeO w + 1) mv w ck ig).isSome = true :=
  cleanLoop_isSome (sizeO w + 1) mv w ck ig (by omega)

/-- Claim C9 is false on the code: a search key holding the empty string
does contribute the empty string to the collected candidate set. -/
theorem c9_counterexample :
    getValuesForKeys (some (objL [(strL ("name"), strN (""))])) [strL ("name")] =
      .ok [Scalar.str []] ∧
    ([Scalar.str []] : List Scalar) ≠ [] :=
  ⟨rfl, by decide⟩

/-- Claim C9, amended: empty scalar values are collected, but an empty
string candidate can never be orphaned, because Python str.count of the
empty needle returns the length of the serialization plus one, which is
at least two on the never-empty serialization, never exactly one. -/
theorem c9_theorem : ∀ (mv : List Scalar) (w : Option Node) (freq : List (Scalar × Nat)),
    getSubstrFrequency (dumpsTop w) mv = .ok freq →
    ((orphanedValues freq).contains (Scalar.str [])) = false := by
  intro mv
  induction mv with
  | nil =>
    intro w freq h
    rw [getSubstrFrequency] at h
    simp only [Except.ok.injEq] at h
    subst h
    rfl
  | cons c rest ih =>
    intro w freq h
    cases c with
    | str sub =>
      rw [getSubstrFrequency] at h
      cases hr : getSubstrFrequency (dumpsTop w) rest with
      | error e => simp [hr] at h
      | ok freqs =>
        simp only [hr, Except.ok.injEq] at h
        subst h
        by_cases hc : (pyCount (dumpsTop w) sub == 1) = true
        · by_cases hsub : sub = []
          · exfalso
            subst hsub
            simp only [pyCount, List.isEmpty_nil, if_true, beq_iff_eq] at hc
            exact dumpsTop_ne_nil w (by simpa using hc)
          · have htail := ih w freqs hr
            simp only [orphanedValues, List.filter_cons, hc, if_true, List.map_cons,
              List.contains_cons] at htail ⊢
            simp only [htail, Bool.or_false]
            simp [hsub]
        · have htail := ih w freqs hr
          simp only [Bool.not_eq_true] at hc
          simp only [orphanedValues, List.filter_cons, hc, Bool.false_eq_true, if_false]
            at htail ⊢
          exact htail
    | int n =>
      rw [getSubstrFrequency] at h
      · simp at h
      · simp
    | bool b =>
      rw [getSubstrFrequency] at h
      · simp at h
      · simp
    | null =>
      rw [getSubstrFrequency] at h
      · simp at h
      · simp

/-- Witness for the amended claim C9 on the tree holding an empty string
under the search key name. -/
theorem c9_witness :
    ((orphanedValues [(Scalar.str [],
        pyCount (dumpsTop (some (objL [(strL ("name"), strN (""))]))) [])]).contains
      (Scalar.str [])) = false :=
  c9_theorem [Scalar.str []] (some (objL [(strL ("name"), strN (""))])) _ rfl

/-- Claim C10, confirmed: with an empty collected candidate set the first
count is empty, nothing is orphaned, no pruning happens, and clean
returns the input tree unchanged, the loop succeeding already with a
single round of fuel. -/
theorem c10_theorem (t : Node) (sk ck ig : List Str)
    (hm : getValuesForKeys (some t) sk = .ok []) :
    cleanObj (some t) sk ck ig = .ok (some t) ∧
    cleanLoop 1 [] (some t) ck ig = some (.ok (some t)) :=
  ⟨cleanObj_stop (some t) sk ck ig [] [] hm rfl rfl,
    cleanLoop_stop 0 [] (some t) ck ig [] rfl rfl⟩

/-- Witness for claim C10 on a tree without any search key. -/
theorem c10_witness :
    cleanObj (some (objL [(strL ("k"), .scal (.int 7))])) [strL ("name")]
        [strL ("name")] [] = .ok (some (objL [(strL ("k"), .scal (.int 7))])) ∧
    cleanLoop 1 [] (some (objL [(strL ("k"), .scal (.int 7))])) [strL ("name")] [] =
      some (.ok (some (objL [(strL ("k"), .scal (.int 7))]))) :=
  c10_theorem (objL [(strL ("k"), .scal (.int 7))]) [strL ("name")] [strL ("name")] [] rfl
